import Mathlib

/-!
# Grading & Aggregation Engine — verification development

Shallow embedding of the marks-submission and aggregation subsystem of the
prep-app backend (Express + Mongoose).  JavaScript numbers are modelled as `ℚ`,
Mongo ObjectIds as `Nat`, timestamps as calendar `Date` records at month
precision (the only precision the aggregation code observes).  The Mongo
collections are modelled as lists; the unique `(test, student)` index of the
`TestResult` collection is reflected by an upsert that replaces the first
record with the matching key.

Embedded source:
* `src/models/Test.js` (TestResult schema: `pre('save')` derivation of
  percentage / grade / isPassed / status, `getClassStatistics`);
* `src/controllers/MarksController.js` (`addOrUpdateMarks`: inline grade
  computation + `bulkWrite` upsert, which bypasses the schema middleware and
  validators);
* `src/controllers/testController.js` (`submitTestMarks`: per-entry
  validation loop + `findOneAndUpdate` upsert with `runValidators: true`;
  Mongoose runs no document save middleware on `findOneAndUpdate`, and the
  TestResult schema — unlike the repo's User schema, which registers a
  separate `pre('findOneAndUpdate')` hook — has no query middleware, so the
  schema's derivation hook never fires on this path);
* `src/unnamed/part_004` (`getStudentPerformance`: subject-wise and monthly
  aggregation).
-/

set_option maxHeartbeats 1000000

namespace PrepApp

/-- Calendar timestamp at month precision (what `toISOString().slice(0, 7)`
and `getFullYear()` observe).  `month` is the 1-based calendar month. -/
structure Date where
  year : Nat
  month : Nat
deriving DecidableEq, Repr

/-- `` `${new Date().getFullYear()}-${year + 1}` `` — the academic-year label
computed in the TestResult schema default and in `submitTestMarks`. -/
def academicYearOf (d : Date) : String :=
  toString d.year ++ "-" ++ toString (d.year + 1)

/-- `Math.round(x * 100) / 100` (JS `Math.round` is `⌊x + 1/2⌋`). -/
def round2 (x : ℚ) : ℚ := (⌊x * 100 + 1 / 2⌋ : ℤ) / 100

/-- `parseFloat(x.toFixed(1))` for nonnegative `x`: round to one decimal,
ties away from zero (equals half-up on the nonnegative inputs used here). -/
def round1 (x : ℚ) : ℚ := (⌊x * 10 + 1 / 2⌋ : ℤ) / 10

/-- The 8-band grade table.  It appears verbatim twice in the source: in the
TestResult schema `pre('save')` hook (src/models/Test.js) and inline in
`addOrUpdateMarks` (src/controllers/MarksController.js); both are descending
`if / else if` chains, first match wins. -/
def gradeOfPercentage (p : ℚ) : String :=
  if p ≥ 90 then "A+"
  else if p ≥ 80 then "A"
  else if p ≥ 70 then "B+"
  else if p ≥ 60 then "B"
  else if p ≥ 50 then "C+"
  else if p ≥ 40 then "C"
  else if p ≥ 35 then "D"
  else "F"

/-- A `Test` document (the fields the grading engine reads). -/
structure Test where
  id : Nat
  maxMarks : ℚ
  passingMarks : ℚ
  subject : Nat
  isActive : Bool
deriving DecidableEq, Repr

/-- A `User` document (the fields the student-existence check reads). -/
structure User where
  id : Nat
  name : String
  role : String
  isActive : Bool
deriving DecidableEq, Repr

/-- A stored `TestResult` document.  `maxMarks` / `passingMarks` are `Option`
because the `bulkWrite` path of `MarksController` never sets them and skips
the schema's `required` validators; `percentage` / `grade` are `Option`
because they have no schema default and the `submitTestMarks` path never
sets them (its `findOneAndUpdate` runs no save middleware), so documents
written by that path lack them. -/
structure StoredResult where
  test : Nat
  student : Nat
  marksObtained : ℚ
  maxMarks : Option ℚ
  passingMarks : Option ℚ
  percentage : Option ℚ
  grade : Option String
  isPassed : Bool
  status : String
  remarks : String
  submittedAt : Date
  gradedBy : Option Nat
  gradedAt : Date
  academicYear : String
  isActive : Bool
  createdAt : Date
deriving DecidableEq, Repr

/-- The database: the three collections the engine touches. -/
structure DB where
  tests : List Test
  users : List User
  results : List StoredResult
deriving DecidableEq, Repr

/-- Upsert against the unique `(test, student)` index: replace the first
record with the key by `f` applied to it, or append `fresh` if no record has
the key. -/
def upsertResult (t s : Nat) (f : StoredResult → StoredResult)
    (fresh : StoredResult) : List StoredResult → List StoredResult
  | [] => [fresh]
  | r :: rs =>
    if r.test = t ∧ r.student = s then f r :: rs
    else r :: upsertResult t s f fresh rs

/-- One element of the `marks` array of `addOrUpdateMarks`. -/
structure BulkEntry where
  student : Nat
  marksObtained : ℚ
  remarks : Option String
deriving DecidableEq, Repr

/-- One `updateOne … upsert: true` operation built by `addOrUpdateMarks`
(src/controllers/MarksController.js lines 28–62).  The percentage is the raw
`(marksObtained / maxMarks) * 100` — no rounding; `$set` updates marks,
remarks and the derived fields, `$setOnInsert` stamps `submittedAt`,
`createdAt` and `gradedBy`; schema defaults fill the remaining fields of a
newly inserted document.  `bulkWrite` bypasses `pre('save')` middleware and
validators, so no further derivation or range checking happens. -/
def bulkWriteOne (test : Test) (graderId : Option Nat) (now : Date)
    (rs : List StoredResult) (mark : BulkEntry) : List StoredResult :=
  let percentage : ℚ := mark.marksObtained / test.maxMarks * 100
  let passed : Bool := decide (mark.marksObtained ≥ test.passingMarks)
  let grade := gradeOfPercentage percentage
  upsertResult test.id mark.student
    (fun r =>
      { r with
        marksObtained := mark.marksObtained
        remarks := mark.remarks.getD ""
        percentage := some percentage
        isPassed := passed
        grade := some grade })
    { test := test.id
      student := mark.student
      marksObtained := mark.marksObtained
      maxMarks := none
      passingMarks := none
      percentage := some percentage
      grade := some grade
      isPassed := passed
      status := if passed then "passed" else "failed"
      remarks := mark.remarks.getD ""
      submittedAt := now
      gradedBy := graderId
      gradedAt := now
      academicYear := academicYearOf now
      isActive := true
      createdAt := now }
    rs

/-- Responses of `addOrUpdateMarks`. -/
inductive BulkResp where
  | invalidMarks
  | testNotFound
  | saved
deriving DecidableEq, Repr

/-- `addOrUpdateMarks` (src/controllers/MarksController.js): validate the
`marks` array, `Test.findById(testId)` — note: no `isActive` filter — then
`bulkWrite` the upserts.  `marks = none` models a missing or non-array
body field. -/
def addOrUpdateMarks (db : DB) (testId : Nat) (marks : Option (List BulkEntry))
    (graderId : Option Nat) (now : Date) : BulkResp × DB :=
  match marks with
  | none => (BulkResp.invalidMarks, db)
  | some ms =>
    if ms.isEmpty then (BulkResp.invalidMarks, db)
    else
      match db.tests.find? (fun t => t.id == testId) with
      | none => (BulkResp.testNotFound, db)
      | some test =>
        (BulkResp.saved,
         { db with results := ms.foldl (bulkWriteOne test graderId now) db.results })

/-- The percentage the schema hook derives: rounded to 2 decimals, and 0
when `maxMarks` is absent (JS falsy) or not positive. -/
def derivedPct (r : StoredResult) : ℚ :=
  match r.maxMarks with
  | some m => if 0 < m then round2 (r.marksObtained / m * 100) else 0
  | none => 0

/-- `this.marksObtained >= this.passingMarks` — false when `passingMarks`
is absent, as a JS `>=` against `undefined` is. -/
def derivedPassed (r : StoredResult) : Bool :=
  match r.passingMarks with
  | some p => decide (r.marksObtained ≥ p)
  | none => false

/-- The TestResult schema `pre('save')` middleware (src/models/Test.js lines
374–412): when marks or maxMarks changed or the document is new, recompute
`percentage`, `grade` (8-band table on the rounded percentage), `isPassed`
and `status`; additionally stamp `gradedAt` when marks changed on an
existing document.  It is registered only as *save* middleware: neither
controller write path triggers it (`bulkWrite` and `findOneAndUpdate` run
no document save middleware), so it is embedded here to state what the
hook *would* derive. -/
def preSaveDerive (isNew marksModified maxModified : Bool) (now : Date)
    (r : StoredResult) : StoredResult :=
  let r1 :=
    if marksModified || maxModified || isNew then
      { r with
        percentage := some (derivedPct r)
        grade := some (gradeOfPercentage (derivedPct r))
        isPassed := derivedPassed r
        status := if derivedPassed r then "passed" else "failed" }
    else r
  if marksModified && !isNew then { r1 with gradedAt := now } else r1

/-- One element of the `results` array of `submitTestMarks`.
`marksObtained = none` models a value whose `parseFloat` is `NaN`. -/
structure SubmitEntry where
  student : Nat
  marksObtained : Option ℚ
  remarks : Option String
deriving DecidableEq, Repr

/-- `User.findOne({ _id: student, role: 'student', isActive: true })`. -/
def findStudent (users : List User) (sid : Nat) : Option User :=
  users.find? (fun u => u.id == sid && u.role == "student" && u.isActive)

/-- The range check of `submitTestMarks`: valid iff the parsed marks are a
number with `0 ≤ marks ≤ test.maxMarks`
(`isNaN(marks) || marks < 0 || marks > test.maxMarks` rejects). -/
def marksOk (test : Test) (m : Option ℚ) : Bool :=
  match m with
  | none => false
  | some v => !(decide (v < 0) || decide (v > test.maxMarks))

/-- An existing document after the update document of `submitTestMarks` is
applied: marks, the Test snapshot's thresholds, remarks, grader and a fresh
`academicYear` are set; `submittedAt` / `createdAt` and the derived fields
keep their stored values until the save middleware runs. -/
def submitBase (test : Test) (graderId : Nat) (now : Date) (sid : Nat)
    (m : ℚ) (remarks : String) (old : StoredResult) : StoredResult :=
  { old with
    test := test.id
    student := sid
    marksObtained := m
    maxMarks := some test.maxMarks
    passingMarks := some test.passingMarks
    remarks := remarks
    gradedBy := some graderId
    gradedAt := now
    isActive := true
    academicYear := academicYearOf now }

/-- A document freshly inserted by the upsert: the update document's fields
plus the schema defaults (`submittedAt` now, `isPassed` false, `status`
"failed", timestamps).  `percentage` and `grade` have no default and are
not in the update document, so the inserted document lacks them. -/
def submitFresh (test : Test) (graderId : Nat) (now : Date) (sid : Nat)
    (m : ℚ) (remarks : String) : StoredResult :=
  { test := test.id
    student := sid
    marksObtained := m
    maxMarks := some test.maxMarks
    passingMarks := some test.passingMarks
    percentage := none
    grade := none
    isPassed := false
    status := "failed"
    remarks := remarks
    submittedAt := now
    gradedBy := some graderId
    gradedAt := now
    academicYear := academicYearOf now
    isActive := true
    createdAt := now }

/-- The `findOneAndUpdate(… , testResultData, upsert, new)` of
`submitTestMarks`: the returned (and stored) document.  Mongoose runs no
document save middleware on `findOneAndUpdate`, so the schema derivation
(`preSaveDerive`) is *not* applied: an update leaves the stored derived
fields untouched, an insert stores none at all. -/
def submitWrite (test : Test) (graderId : Nat) (now : Date) (sid : Nat)
    (m : ℚ) (remarks : String) (rs : List StoredResult) : StoredResult :=
  match rs.find? (fun r => r.test == test.id && r.student == sid) with
  | some old => submitBase test graderId now sid m remarks old
  | none => submitFresh test graderId now sid m remarks

/-- `String.prototype.trim`, modelled structurally on the character list
(the whitespace the controller's inputs can contain). -/
def isJsSpace (c : Char) : Bool :=
  c == ' ' || c == '\t' || c == '\n' || c == '\r'

/-- See `isJsSpace`. -/
def jsTrim (s : String) : String :=
  ⟨((s.data.dropWhile isJsSpace).reverse.dropWhile isJsSpace).reverse⟩

/-- The `runValidators: true` update validation of the `findOneAndUpdate`,
over the `$set` paths of the update document: `marksObtained` min 0,
`maxMarks` min 1, `passingMarks` min 0, `remarks` maxlength 500.  A failing
validator throws a `ValidationError` before anything is written; the
per-entry `try/catch` of `submitTestMarks` records it as that entry's
error. -/
def updateValidatorsOk (test : Test) (m : ℚ) (remarks : String) : Bool :=
  decide (0 ≤ m) && decide (1 ≤ test.maxMarks) &&
    decide (0 ≤ test.passingMarks) && decide (remarks.length ≤ 500)

/-- The per-entry loop of `submitTestMarks` (src/controllers/testController.js
lines 560–633).  Returns the updated results collection, the `savedResults`
list and the `errors` list, in entry order.  An entry with an unknown /
inactive student or out-of-range marks contributes one error and is skipped
(`continue`); an entry whose `findOneAndUpdate` fails update validation
throws, is caught, and contributes one error; a valid entry is upserted and
its saved document recorded. -/
def processEntries (users : List User) (test : Test) (graderId : Nat)
    (now : Date) :
    List SubmitEntry → List StoredResult →
      List StoredResult × List StoredResult × List String
  | [], rs => (rs, [], [])
  | e :: es, rs =>
    match findStudent users e.student with
    | none =>
      let out := processEntries users test graderId now es rs
      (out.1, out.2.1,
        ("Student with ID " ++ toString e.student ++ " not found") :: out.2.2)
    | some stu =>
      if marksOk test e.marksObtained then
        let m := e.marksObtained.getD 0
        let rem := jsTrim (e.remarks.getD "")
        if updateValidatorsOk test m rem then
          let written := submitWrite test graderId now e.student m rem rs
          let rs' := upsertResult test.id e.student (fun _ => written) written rs
          let out := processEntries users test graderId now es rs'
          (out.1, written :: out.2.1, out.2.2)
        else
          let out := processEntries users test graderId now es rs
          (out.1, out.2.1,
            ("Failed to save marks for student " ++ toString e.student) :: out.2.2)
      else
        let out := processEntries users test graderId now es rs
        (out.1, out.2.1, ("Invalid marks for student " ++ stu.name) :: out.2.2)

/-- Responses of `submitTestMarks` (the denormalised `resultCount` /
`lastMarksUpdate` convenience write on the Test is omitted; no claim
concerns it). -/
inductive SubmitResp where
  | invalidResults
  | testNotFound
  | ok (processed : List StoredResult) (errors : List String)
deriving DecidableEq, Repr

/-- `submitTestMarks` (src/controllers/testController.js lines 519–694):
validate the `results` array, resolve the test once with
`Test.findOne({ _id, isActive: true })`, then process each entry
independently. -/
def submitTestMarks (db : DB) (testId : Nat)
    (results : Option (List SubmitEntry)) (graderId : Nat) (now : Date) :
    SubmitResp × DB :=
  match results with
  | none => (SubmitResp.invalidResults, db)
  | some es =>
    if es.isEmpty then (SubmitResp.invalidResults, db)
    else
      match db.tests.find? (fun t => t.id == testId && t.isActive) with
      | none => (SubmitResp.testNotFound, db)
      | some test =>
        let out := processEntries db.users test graderId now es db.results
        (SubmitResp.ok out.2.1 out.2.2, { db with results := out.1 })

/-- Association-list update with JS-object key semantics: update the value in
place if the key is present, else append the key at the end (JS objects keep
string-key insertion order). -/
def assocUpd {K B : Type} [DecidableEq K] (k : K) (f : B → B) (d : B) :
    List (K × B) → List (K × B)
  | [] => [(k, d)]
  | (k', v) :: t => if k = k' then (k', f v) :: t else (k', v) :: assocUpd k f d t

/-- `Math.max(...)` over a list (only reached on nonempty input). -/
def qMax : List ℚ → ℚ
  | [] => 0
  | x :: xs => xs.foldl max x

/-- `Math.min(...)` over a list (only reached on nonempty input). -/
def qMin : List ℚ → ℚ
  | [] => 0
  | x :: xs => xs.foldl min x

/-- The class-statistics record returned by
`TestResult.getClassStatistics` (src/models/Test.js lines 475–508).
`averagePercentage` is `Option` because summing `r.percentage` over a
record that lacks the field is `NaN` in JS (modelled `none`), and
`Math.round` keeps it `NaN`. -/
structure ClassStats where
  totalStudents : Nat
  averageMarks : ℚ
  averagePercentage : Option ℚ
  passRate : ℚ
  highestMarks : ℚ
  lowestMarks : ℚ
  gradeDistribution : List (String × Nat)
deriving DecidableEq, Repr

/-- `results.reduce((sum, result) => sum + result.percentage, 0)`: `NaN`
(here `none`) as soon as any record lacks a `percentage`. -/
def sumPercentage (results : List StoredResult) : Option ℚ :=
  results.foldl
    (fun acc r =>
      match acc, r.percentage with
      | some s, some p => some (s + p)
      | _, _ => none)
    (some 0)

/-- `getClassStatistics` over an already-fetched list of results: all-zero
defaults on the empty list, otherwise averages rounded to 2 decimals, pass
rate as a rounded percentage, extremes via `Math.max` / `Math.min`, and the
grade distribution accumulated into an object keyed by grade. -/
def classStatistics (results : List StoredResult) : ClassStats :=
  if results.isEmpty then
    { totalStudents := 0
      averageMarks := 0
      averagePercentage := some 0
      passRate := 0
      highestMarks := 0
      lowestMarks := 0
      gradeDistribution := [] }
  else
    let n : ℚ := results.length
    let totalMarks := (results.map (fun r => r.marksObtained)).sum
    let passedCount : ℚ := (results.filter (fun r => r.isPassed)).length
    { totalStudents := results.length
      averageMarks := round2 (totalMarks / n)
      averagePercentage := (sumPercentage results).map (fun s => round2 (s / n))
      passRate := round2 (passedCount / n * 100)
      highestMarks := qMax (results.map (fun r => r.marksObtained))
      lowestMarks := qMin (results.map (fun r => r.marksObtained))
      gradeDistribution :=
        results.foldl
          (fun dist r => assocUpd (r.grade.getD "undefined") (fun c => c + 1) 1 dist)
          [] }

/-- `TestResult.getClassStatistics(testId)`:
`find({ test: testId, isActive: true })` then compute. -/
def getClassStatistics (db : DB) (testId : Nat) : ClassStats :=
  classStatistics (db.results.filter (fun r => r.test == testId && r.isActive))

/-! ## Aggregation over populated results (`getStudentPerformance`,
src/unnamed/part_004 lines 612–723)

`TestResult.find({ student }).populate('test')` yields result documents
joined with their Test document; `PopResult` models one such joined row. -/

/-- A result document with its populated `test` (whose `subject` is in turn
resolved to a stable subject identity). -/
structure PopResult where
  res : StoredResult
  testDoc : Test
deriving DecidableEq, Repr

/-- Accumulator of the per-subject bucket built by `getStudentPerformance`. -/
structure SubjAcc where
  totalMarks : ℚ
  totalMaxMarks : ℚ
  totalTests : Nat
  passedTests : Nat
  results : List PopResult
deriving DecidableEq, Repr

/-- One step of the per-subject accumulation:
marks and the test's `maxMarks` are added, counters bumped,
the row pushed onto the bucket's `results`. -/
def subjStep (acc : SubjAcc) (p : PopResult) : SubjAcc :=
  { totalMarks := acc.totalMarks + p.res.marksObtained
    totalMaxMarks := acc.totalMaxMarks + p.testDoc.maxMarks
    totalTests := acc.totalTests + 1
    passedTests := acc.passedTests + (if p.res.isPassed then 1 else 0)
    results := acc.results ++ [p] }

/-- The empty per-subject bucket. -/
def subjAcc0 : SubjAcc := ⟨0, 0, 0, 0, []⟩

/-- A finished subject-performance entry (percentage and pass rate filled in
by the `Object.keys(subjectPerformance).forEach` pass). -/
structure SubjPerf where
  subject : Nat
  totalMarks : ℚ
  totalMaxMarks : ℚ
  totalTests : Nat
  passedTests : Nat
  results : List PopResult
  percentage : ℚ
  passRate : ℚ
deriving DecidableEq, Repr

/-- The `forEach` accumulation pattern of `getStudentPerformance`: walk the
rows left to right, updating the bucket of the row's key in place or opening
a new bucket (at the end, in key-insertion order). -/
def groupAcc {K B α : Type} [DecidableEq K] (key : α → K) (step : B → α → B)
    (i : B) (l : List α) (acc : List (K × B)) : List (K × B) :=
  l.foldl (fun a p => assocUpd (key p) (fun v => step v p) (step i p) a) acc

/-- `subjectPerformance` of `getStudentPerformance`: bucket the rows by the
subject identity of their test (`result.test.subject._id`), then derive
`percentage = (totalMarks / totalMaxMarks) * 100` and
`passRate = (passedTests / totalTests) * 100`, both `toFixed(1)`-rounded and
0 when the denominator is 0; return `Object.values` in key-insertion order. -/
def subjectPerformance (rs : List PopResult) : List SubjPerf :=
  let grouped : List (Nat × SubjAcc) :=
    groupAcc (fun p => p.testDoc.subject) subjStep subjAcc0 rs []
  grouped.map (fun kv =>
    { subject := kv.1
      totalMarks := kv.2.totalMarks
      totalMaxMarks := kv.2.totalMaxMarks
      totalTests := kv.2.totalTests
      passedTests := kv.2.passedTests
      results := kv.2.results
      percentage :=
        if (0 : ℚ) < kv.2.totalMaxMarks then
          round1 (kv.2.totalMarks / kv.2.totalMaxMarks * 100)
        else 0
      passRate :=
        if 0 < kv.2.totalTests then
          round1 ((kv.2.passedTests : ℚ) / (kv.2.totalTests : ℚ) * 100)
        else 0 })

/-! ### Period strings

`result.createdAt.toISOString().slice(0, 7)` renders the record's creation
timestamp as the zero-padded `"YYYY-MM"` period key; the rollup is sorted
with `(a, b) => a.month.localeCompare(b.month)`, i.e. ascending lexicographic
comparison of character values. -/

/-- Decimal digits of `n`, zero-padded on the left to width `k`
(the rendering `toISOString` uses for the year and month fields). -/
def padDigits : Nat → Nat → List Char
  | 0, _ => []
  | k + 1, n => Nat.digitChar (n / 10 ^ k) :: padDigits k (n % 10 ^ k)

/-- The `"YYYY-MM"` period key of a timestamp. -/
def monthKey (d : Date) : String :=
  ⟨padDigits 4 d.year ++ '-' :: padDigits 2 d.month⟩

/-- Lexicographic less-or-equal on character lists by character value —
the order `localeCompare` induces on ASCII period keys. -/
def lexLeB : List Char → List Char → Bool
  | [], _ => true
  | _ :: _, [] => false
  | a :: as, b :: bs =>
    if a.toNat < b.toNat then true
    else if b.toNat < a.toNat then false
    else lexLeB as bs

/-- String order used by the `localeCompare` sort. -/
def strLe (s t : String) : Prop := lexLeB s.data t.data = true

instance : DecidableRel strLe := fun s t =>
  inferInstanceAs (Decidable (lexLeB s.data t.data = true))

/-- Accumulator of one monthly bucket. -/
structure MonthAcc where
  totalMarks : ℚ
  totalMaxMarks : ℚ
  testsCount : Nat
deriving DecidableEq, Repr

/-- One step of the monthly accumulation. -/
def monthStep (acc : MonthAcc) (p : PopResult) : MonthAcc :=
  { totalMarks := acc.totalMarks + p.res.marksObtained
    totalMaxMarks := acc.totalMaxMarks + p.testDoc.maxMarks
    testsCount := acc.testsCount + 1 }

/-- The empty monthly bucket. -/
def monthAcc0 : MonthAcc := ⟨0, 0, 0⟩

/-- A finished monthly-performance entry. -/
structure MonthPerf where
  month : String
  totalMarks : ℚ
  totalMaxMarks : ℚ
  testsCount : Nat
  percentage : ℚ
deriving DecidableEq, Repr

/-- Sort relation of the monthly rollup:
`(a, b) => a.month.localeCompare(b.month)` ascending. -/
def monthLe (a b : MonthPerf) : Prop := strLe a.month b.month

instance : DecidableRel monthLe := fun a b =>
  inferInstanceAs (Decidable (strLe a.month b.month))

/-- The `Object.keys(monthlyPerformance).forEach` pass: derive the bucket's
percentage (`toFixed(1)`-rounded, 0 when `totalMaxMarks` is 0). -/
def monthFinish (kv : String × MonthAcc) : MonthPerf :=
  { month := kv.1
    totalMarks := kv.2.totalMarks
    totalMaxMarks := kv.2.totalMaxMarks
    testsCount := kv.2.testsCount
    percentage :=
      if (0 : ℚ) < kv.2.totalMaxMarks then
        round1 (kv.2.totalMarks / kv.2.totalMaxMarks * 100)
      else 0 }

/-- `monthlyPerformance` of `getStudentPerformance`: bucket the rows by the
`"YYYY-MM"` key of `createdAt`, derive each bucket's percentage, and sort
the values by the period string ascending. -/
def monthlyPerformance (rs : List PopResult) : List MonthPerf :=
  let grouped : List (String × MonthAcc) :=
    groupAcc (fun p => monthKey p.res.createdAt) monthStep monthAcc0 rs []
  List.insertionSort monthLe (grouped.map monthFinish)

/-- A timestamp whose period key is a genuine `"YYYY-MM"` string: 4-digit
year, calendar month. -/
def dateValid (d : Date) : Prop := d.year < 10000 ∧ 1 ≤ d.month ∧ d.month ≤ 12

/-- Chronological order at month precision. -/
def chronoLe (d d' : Date) : Prop :=
  d.year < d'.year ∨ (d.year = d'.year ∧ d.month ≤ d'.month)

/-! ## Lemmas: association lists and grouping -/

/-- Lookup in an association list. -/
def assocGet {K B : Type} [DecidableEq K] (k : K) : List (K × B) → Option B
  | [] => none
  | (k', v) :: t => if k = k' then some v else assocGet k t

theorem assocGet_upd_self {K B : Type} [DecidableEq K] (k : K) (f : B → B)
    (d : B) : ∀ l : List (K × B),
    assocGet k (assocUpd k f d l) =
      some (match assocGet k l with | some v => f v | none => d)
  | [] => by simp [assocGet, assocUpd]
  | (k', v) :: t => by
    by_cases h : k = k'
    · subst h; simp [assocGet, assocUpd]
    · simp [assocGet, assocUpd, h, assocGet_upd_self k f d t]

theorem assocGet_upd_other {K B : Type} [DecidableEq K] {k k0 : K}
    (h : k ≠ k0) (f : B → B) (d : B) : ∀ l : List (K × B),
    assocGet k (assocUpd k0 f d l) = assocGet k l
  | [] => by simp [assocGet, assocUpd, h]
  | (k', v) :: t => by
    by_cases h0 : k0 = k'
    · subst h0
      simp [assocGet, assocUpd, h]
    · by_cases h1 : k = k'
      · subst h1; simp [assocGet, assocUpd, h0]
      · simp [assocGet, assocUpd, h0, h1, assocGet_upd_other h f d t]

theorem mem_keys_upd {K B : Type} [DecidableEq K] {k' : K} (k : K)
    (f : B → B) (d : B) : ∀ l : List (K × B),
    (k' ∈ (assocUpd k f d l).map Prod.fst ↔ k' = k ∨ k' ∈ l.map Prod.fst)
  | [] => by simp [assocUpd]
  | (k0, v) :: t => by
    by_cases h : k = k0
    · subst h
      simp [assocUpd]
    · simp only [assocUpd, if_neg h, List.map_cons, List.mem_cons,
        mem_keys_upd k f d t]
      tauto

theorem nodup_keys_upd {K B : Type} [DecidableEq K] (k : K) (f : B → B)
    (d : B) : ∀ l : List (K × B),
    (l.map Prod.fst).Nodup → ((assocUpd k f d l).map Prod.fst).Nodup
  | [] => by simp [assocUpd]
  | (k0, v) :: t => by
    intro hn
    rw [List.map_cons, List.nodup_cons] at hn
    by_cases h : k = k0
    · subst h
      have he : assocUpd k f d ((k, v) :: t) = (k, f v) :: t := by
        simp [assocUpd]
      rw [he, List.map_cons, List.nodup_cons]
      exact hn
    · have he : assocUpd k f d ((k0, v) :: t) = (k0, v) :: assocUpd k f d t := by
        simp [assocUpd, h]
      rw [he, List.map_cons, List.nodup_cons]
      refine ⟨fun hc => ?_, nodup_keys_upd k f d t hn.2⟩
      rcases (mem_keys_upd k f d t).1 hc with he2 | hmem
      · exact h he2.symm
      · exact hn.1 hmem

theorem mem_keys_iff_assocGet {K B : Type} [DecidableEq K] {k : K} :
    ∀ {l : List (K × B)}, k ∈ l.map Prod.fst ↔ (assocGet k l).isSome
  | [] => by simp [assocGet]
  | (k0, v) :: t => by
    by_cases h : k = k0
    · subst h; simp [assocGet]
    · simp [assocGet, h, @mem_keys_iff_assocGet K B _ k t]

theorem assocGet_of_mem_nodup {K B : Type} [DecidableEq K] {k : K} {v : B} :
    ∀ {l : List (K × B)}, (l.map Prod.fst).Nodup → (k, v) ∈ l →
      assocGet k l = some v
  | [], _, hm => by simp at hm
  | (k0, v0) :: t, hn, hm => by
    rw [List.map_cons, List.nodup_cons] at hn
    rcases List.mem_cons.1 hm with he | ht
    · injection he with h1 h2
      subst h1; subst h2
      simp [assocGet]
    · have hk : k ≠ k0 := fun he => by
        subst he
        exact hn.1 (List.mem_map.mpr ⟨(k, v), ht, rfl⟩)
      simp [assocGet, hk, assocGet_of_mem_nodup hn.2 ht]

theorem assocGet_groupAcc {K B α : Type} [DecidableEq K] (key : α → K)
    (step : B → α → B) (i : B) (k : K) :
    ∀ (l : List α) (acc : List (K × B)),
      assocGet k (groupAcc key step i l acc) =
        match assocGet k acc with
        | some v => some ((l.filter (fun a => decide (key a = k))).foldl step v)
        | none =>
          match l.filter (fun a => decide (key a = k)) with
          | [] => none
          | a :: as => some (as.foldl step (step i a))
  | [], acc => by cases h : assocGet k acc <;> simp [groupAcc, h]
  | p :: l, acc => by
    have hstep : groupAcc key step i (p :: l) acc =
        groupAcc key step i l (assocUpd (key p) (fun v => step v p) (step i p) acc) := rfl
    rw [hstep, assocGet_groupAcc key step i k l]
    by_cases h : key p = k
    · subst h
      rw [assocGet_upd_self]
      cases hacc : assocGet (key p) acc <;>
        simp [List.filter_cons, hacc]
    · have h' : k ≠ key p := fun he => h he.symm
      rw [assocGet_upd_other h']
      cases hacc : assocGet k acc <;>
        simp [List.filter_cons, h, hacc]

theorem keys_groupAcc_nodup {K B α : Type} [DecidableEq K] (key : α → K)
    (step : B → α → B) (i : B) :
    ∀ (l : List α) (acc : List (K × B)),
      (acc.map Prod.fst).Nodup → ((groupAcc key step i l acc).map Prod.fst).Nodup
  | [], _ => fun h => h
  | p :: l, acc => fun h =>
    keys_groupAcc_nodup key step i l
      (assocUpd (key p) (fun v => step v p) (step i p) acc)
      (nodup_keys_upd _ _ _ acc h)

theorem mem_keys_groupAcc {K B α : Type} [DecidableEq K] (key : α → K)
    (step : B → α → B) (i : B) {k : K} :
    ∀ (l : List α) (acc : List (K × B)),
      (k ∈ (groupAcc key step i l acc).map Prod.fst ↔
        k ∈ acc.map Prod.fst ∨ ∃ a ∈ l, key a = k)
  | [], acc => by simp [groupAcc]
  | p :: l, acc => by
    have hstep : groupAcc key step i (p :: l) acc =
        groupAcc key step i l (assocUpd (key p) (fun v => step v p) (step i p) acc) := rfl
    rw [hstep, mem_keys_groupAcc key step i l, mem_keys_upd]
    constructor
    · rintro ((rfl | hacc) | hl)
      · exact Or.inr ⟨p, List.mem_cons_self p l, rfl⟩
      · exact Or.inl hacc
      · rcases hl with ⟨a, ha, rfl⟩
        exact Or.inr ⟨a, List.mem_cons_of_mem p ha, rfl⟩
    · rintro (hacc | ⟨a, ha, rfl⟩)
      · exact Or.inl (Or.inr hacc)
      · rcases List.mem_cons.1 ha with rfl | ha2
        · exact Or.inl (Or.inl rfl)
        · exact Or.inr ⟨a, ha2, rfl⟩

/-! ## Lemmas: the lexicographic order used by the period sort -/

theorem lexLeB_total : ∀ x y : List Char,
    lexLeB x y = true ∨ lexLeB y x = true
  | [], _ => Or.inl rfl
  | _ :: _, [] => Or.inr rfl
  | a :: as, b :: bs => by
    rcases Nat.lt_trichotomy a.toNat b.toNat with h | h | h
    · left; simp [lexLeB, h]
    · have h1 : ¬ a.toNat < b.toNat := by omega
      have h2 : ¬ b.toNat < a.toNat := by omega
      rcases lexLeB_total as bs with ih | ih
      · left; simp [lexLeB, h1, h2, ih]
      · right; simp [lexLeB, h1, h2, ih]
    · right; simp [lexLeB, h]

theorem lexLeB_trans : ∀ x y z : List Char,
    lexLeB x y = true → lexLeB y z = true → lexLeB x z = true
  | [], _, _ => fun _ _ => rfl
  | a :: as, [], _ => fun h _ => by simp [lexLeB] at h
  | _ :: _, _ :: _, [] => fun _ h => by simp [lexLeB] at h
  | a :: as, b :: bs, c :: cs => by
    intro h1 h2
    by_cases hab : a.toNat < b.toNat <;> by_cases hbc : b.toNat < c.toNat
    · simp [lexLeB, show a.toNat < c.toNat by omega]
    · have hcb : ¬ c.toNat < b.toNat := by
        intro hh
        simp [lexLeB, hbc, hh] at h2
      simp [lexLeB, show a.toNat < c.toNat by omega]
    · have hba : ¬ b.toNat < a.toNat := by
        intro hh
        simp [lexLeB, hab, hh] at h1
      simp [lexLeB, show a.toNat < c.toNat by omega]
    · have hba : ¬ b.toNat < a.toNat := by
        intro hh
        simp [lexLeB, hab, hh] at h1
      have hcb : ¬ c.toNat < b.toNat := by
        intro hh
        simp [lexLeB, hbc, hh] at h2
      have hac : ¬ a.toNat < c.toNat := by omega
      have hca : ¬ c.toNat < a.toNat := by omega
      simp [lexLeB, hab, hba, hbc, hcb, hac, hca] at h1 h2 ⊢
      exact lexLeB_trans as bs cs h1 h2

instance : IsTotal MonthPerf monthLe :=
  ⟨fun a b => lexLeB_total a.month.data b.month.data⟩

instance : IsTrans MonthPerf monthLe :=
  ⟨fun a b c => lexLeB_trans a.month.data b.month.data c.month.data⟩

theorem digitChar_toNat {d : Nat} (h : d < 10) :
    (Nat.digitChar d).toNat = 48 + d := by
  interval_cases d <;> rfl

theorem lexLeB_padDigits_append :
    ∀ (k : Nat) {n n' : Nat}, n < 10 ^ k → n' < 10 ^ k →
      ∀ (x y : List Char),
        lexLeB (padDigits k n ++ x) (padDigits k n' ++ y) =
          if n = n' then lexLeB x y else decide (n < n')
  | 0, n, n', hn, hn', x, y => by
    have h0 : n = 0 := by simpa using hn
    have h0' : n' = 0 := by simpa using hn'
    subst h0; subst h0'
    simp [padDigits]
  | k + 1, n, n', hn, hn', x, y => by
    have hp : 0 < 10 ^ k := pow_pos (by norm_num) k
    have hn10 : n < 10 * 10 ^ k := by
      calc n < 10 ^ (k + 1) := hn
        _ = 10 * 10 ^ k := by ring
    have hn10' : n' < 10 * 10 ^ k := by
      calc n' < 10 ^ (k + 1) := hn'
        _ = 10 * 10 ^ k := by ring
    have ha : n / 10 ^ k < 10 := (Nat.div_lt_iff_lt_mul hp).mpr (by omega)
    have hb : n' / 10 ^ k < 10 := (Nat.div_lt_iff_lt_mul hp).mpr (by omega)
    have e1 : 10 ^ k * (n / 10 ^ k) + n % 10 ^ k = n := Nat.div_add_mod n (10 ^ k)
    have e2 : 10 ^ k * (n' / 10 ^ k) + n' % 10 ^ k = n' := Nat.div_add_mod n' (10 ^ k)
    have m1 : n % 10 ^ k < 10 ^ k := Nat.mod_lt _ hp
    have m2 : n' % 10 ^ k < 10 ^ k := Nat.mod_lt _ hp
    rcases Nat.lt_trichotomy (n / 10 ^ k) (n' / 10 ^ k) with hd | hd | hd
    · have hlt : n < n' := by
        calc n = 10 ^ k * (n / 10 ^ k) + n % 10 ^ k := e1.symm
          _ < 10 ^ k * (n / 10 ^ k) + 10 ^ k := Nat.add_lt_add_left m1 _
          _ = 10 ^ k * (n / 10 ^ k + 1) := by ring
          _ ≤ 10 ^ k * (n' / 10 ^ k) := Nat.mul_le_mul_left _ (by omega)
          _ ≤ 10 ^ k * (n' / 10 ^ k) + n' % 10 ^ k := Nat.le_add_right _ _
          _ = n' := e2
      have hL : lexLeB (padDigits (k + 1) n ++ x) (padDigits (k + 1) n' ++ y) = true := by
        simp [padDigits, lexLeB, digitChar_toNat ha, digitChar_toNat hb,
          show 48 + n / 10 ^ k < 48 + n' / 10 ^ k by omega]
      rw [hL, if_neg (show ¬ n = n' by omega)]
      exact (decide_eq_true hlt).symm
    · have h48 : ¬ 48 + n / 10 ^ k < 48 + n' / 10 ^ k := by omega
      have h48' : ¬ 48 + n' / 10 ^ k < 48 + n / 10 ^ k := by omega
      have ed : 10 ^ k * (n / 10 ^ k) = 10 ^ k * (n' / 10 ^ k) := by rw [hd]
      have hstep :
          lexLeB (padDigits (k + 1) n ++ x) (padDigits (k + 1) n' ++ y) =
            lexLeB (padDigits k (n % 10 ^ k) ++ x) (padDigits k (n' % 10 ^ k) ++ y) := by
        simp [padDigits, lexLeB, digitChar_toNat ha, digitChar_toNat hb, h48, h48']
      rw [hstep, lexLeB_padDigits_append k m1 m2 x y]
      by_cases hr : n % 10 ^ k = n' % 10 ^ k
      · have hnn : n = n' := by omega
        rw [if_pos hr, if_pos hnn]
      · have hne : ¬ n = n' := by omega
        rw [if_neg hr, if_neg hne]
        exact decide_eq_decide.mpr (by omega)
    · have hlt : n' < n := by
        calc n' = 10 ^ k * (n' / 10 ^ k) + n' % 10 ^ k := e2.symm
          _ < 10 ^ k * (n' / 10 ^ k) + 10 ^ k := Nat.add_lt_add_left m2 _
          _ = 10 ^ k * (n' / 10 ^ k + 1) := by ring
          _ ≤ 10 ^ k * (n / 10 ^ k) := Nat.mul_le_mul_left _ (by omega)
          _ ≤ 10 ^ k * (n / 10 ^ k) + n % 10 ^ k := Nat.le_add_right _ _
          _ = n := e1
      have hL : lexLeB (padDigits (k + 1) n ++ x) (padDigits (k + 1) n' ++ y) = false := by
        simp [padDigits, lexLeB, digitChar_toNat ha, digitChar_toNat hb,
          show ¬ 48 + n / 10 ^ k < 48 + n' / 10 ^ k by omega,
          show 48 + n' / 10 ^ k < 48 + n / 10 ^ k by omega]
      rw [hL, if_neg (show ¬ n = n' by omega)]
      exact (decide_eq_false (show ¬ n < n' by omega)).symm

/-- On genuine `"YYYY-MM"` keys the `localeCompare` order coincides with
chronological order. -/
theorem strLe_monthKey_iff {d d' : Date} (h : dateValid d)
    (h' : dateValid d') : (strLe (monthKey d) (monthKey d') ↔ chronoLe d d') := by
  obtain ⟨hy, hm1, hm2⟩ := h
  obtain ⟨hy', hm1', hm2'⟩ := h'
  have hdata : (monthKey d).data = padDigits 4 d.year ++ '-' :: padDigits 2 d.month := rfl
  have hdata' : (monthKey d').data = padDigits 4 d'.year ++ '-' :: padDigits 2 d'.month := rfl
  unfold strLe chronoLe
  rw [hdata, hdata',
    lexLeB_padDigits_append 4 (by omega) (by omega)]
  by_cases hyy : d.year = d'.year
  · rw [if_pos hyy]
    have hm100 : d.month < 10 ^ 2 := by omega
    have hm100' : d'.month < 10 ^ 2 := by omega
    have inner : lexLeB ('-' :: padDigits 2 d.month) ('-' :: padDigits 2 d'.month) =
        lexLeB (padDigits 2 d.month ++ []) (padDigits 2 d'.month ++ []) := by
      simp [lexLeB]
    rw [inner, lexLeB_padDigits_append 2 hm100 hm100']
    by_cases hmm : d.month = d'.month
    · simp [hmm, lexLeB, hyy]
    · simp only [if_neg hmm, decide_eq_true_eq]
      constructor
      · intro hlt; exact Or.inr ⟨hyy, Nat.le_of_lt hlt⟩
      · rintro (hlt | ⟨_, hle⟩)
        · omega
        · omega
  · rw [if_neg hyy]
    simp only [decide_eq_true_eq]
    constructor
    · intro hlt; exact Or.inl hlt
    · rintro (hlt | ⟨he, _⟩)
      · exact hlt
      · exact absurd he hyy

/-! ## Lemmas: the submission paths -/

theorem mem_upsertResult {t s : Nat} {f : StoredResult → StoredResult}
    {fresh : StoredResult} :
    ∀ {l : List StoredResult} {r' : StoredResult},
      r' ∈ upsertResult t s f fresh l →
        r' = fresh ∨
          (∃ r ∈ l, (r.test = t ∧ r.student = s) ∧ r' = f r) ∨
          r' ∈ l
  | [], r', h => by
    simp [upsertResult] at h
    exact Or.inl h
  | r0 :: l, r', h => by
    by_cases hc : r0.test = t ∧ r0.student = s
    · simp only [upsertResult, if_pos hc] at h
      rcases List.mem_cons.1 h with he | hl
      · exact Or.inr (Or.inl ⟨r0, List.mem_cons_self r0 l, hc, he⟩)
      · exact Or.inr (Or.inr (List.mem_cons_of_mem r0 hl))
    · simp only [upsertResult, if_neg hc] at h
      rcases List.mem_cons.1 h with he | hl
      · exact Or.inr (Or.inr (by simp [he]))
      · rcases mem_upsertResult hl with h1 | ⟨r, hr, hkey, he2⟩ | h1
        · exact Or.inl h1
        · exact Or.inr (Or.inl ⟨r, List.mem_cons_of_mem r0 hr, hkey, he2⟩)
        · exact Or.inr (Or.inr (List.mem_cons_of_mem r0 h1))

theorem submitWrite_key (test : Test) (g : Nat) (now : Date) (sid : Nat)
    (m : ℚ) (rem : String) (rs : List StoredResult) :
    (submitWrite test g now sid m rem rs).test = test.id ∧
    (submitWrite test g now sid m rem rs).student = sid := by
  unfold submitWrite
  cases rs.find? (fun r => r.test == test.id && r.student == sid) with
  | none => exact ⟨rfl, rfl⟩
  | some old => exact ⟨rfl, rfl⟩

/-- Generic invariant-preservation through the per-entry loop: if `P` holds
of every stored record and of every record `submitWrite` produces from a
`P`-store, it holds of every record after the loop. -/
theorem inv_processEntries (P : StoredResult → Prop) (users : List User)
    (test : Test) (g : Nat) (now : Date)
    (hP : ∀ (rs : List StoredResult) (sid : Nat) (m : ℚ) (rem : String),
      (∀ r ∈ rs, P r) → P (submitWrite test g now sid m rem rs)) :
    ∀ (es : List SubmitEntry) (rs : List StoredResult),
      (∀ r ∈ rs, P r) →
      ∀ r ∈ (processEntries users test g now es rs).1, P r
  | [], rs, hrs => by simpa [processEntries] using hrs
  | e :: es, rs, hrs => by
    cases hs : findStudent users e.student with
    | none =>
      simp only [processEntries, hs]
      exact inv_processEntries P users test g now hP es rs hrs
    | some stu =>
      by_cases hm : marksOk test e.marksObtained
      · by_cases hv : updateValidatorsOk test (e.marksObtained.getD 0)
            (jsTrim (e.remarks.getD ""))
        · simp only [processEntries, hs, if_pos hm, if_pos hv]
          refine inv_processEntries P users test g now hP es _ ?_
          intro r hr
          rcases mem_upsertResult hr with rfl | ⟨r0, _, _, rfl⟩ | hmem
          · exact hP rs e.student (e.marksObtained.getD 0)
              (jsTrim (e.remarks.getD "")) hrs
          · exact hP rs e.student (e.marksObtained.getD 0)
              (jsTrim (e.remarks.getD "")) hrs
          · exact hrs r hmem
        · simp only [processEntries, hs, if_pos hm, if_neg hv]
          exact inv_processEntries P users test g now hP es rs hrs
      · simp only [processEntries, hs, if_neg hm]
        exact inv_processEntries P users test g now hP es rs hrs

/-- Which entries the loop writes: known active student, in-range marks,
and an update document passing the `runValidators` validation. -/
def entryValid (users : List User) (test : Test) (e : SubmitEntry) : Bool :=
  (findStudent users e.student).isSome && marksOk test e.marksObtained &&
    updateValidatorsOk test (e.marksObtained.getD 0) (jsTrim (e.remarks.getD ""))

theorem processEntries_counts (users : List User) (test : Test) (g : Nat)
    (now : Date) :
    ∀ (es : List SubmitEntry) (rs : List StoredResult),
      (processEntries users test g now es rs).2.1.length =
        (es.filter (fun e => entryValid users test e)).length ∧
      (processEntries users test g now es rs).2.2.length =
        (es.filter (fun e => !entryValid users test e)).length
  | [], rs => by simp [processEntries]
  | e :: es, rs => by
    cases hs : findStudent users e.student with
    | none =>
      have ih := processEntries_counts users test g now es rs
      simp [processEntries, hs, entryValid, List.filter_cons, ih.1, ih.2]
    | some stu =>
      by_cases hm : marksOk test e.marksObtained
      · by_cases hv : updateValidatorsOk test (e.marksObtained.getD 0)
            (jsTrim (e.remarks.getD ""))
        · have ih := processEntries_counts users test g now es
            (upsertResult test.id e.student
              (fun _ => submitWrite test g now e.student (e.marksObtained.getD 0)
                (jsTrim (e.remarks.getD "")) rs)
              (submitWrite test g now e.student (e.marksObtained.getD 0)
                (jsTrim (e.remarks.getD "")) rs) rs)
          simp [processEntries, hs, hm, hv, entryValid, List.filter_cons,
            ih.1, ih.2]
        · have ih := processEntries_counts users test g now es rs
          simp [processEntries, hs, hm, hv, entryValid, List.filter_cons,
            ih.1, ih.2]
      · have ih := processEntries_counts users test g now es rs
        simp [processEntries, hs, hm, entryValid, List.filter_cons, ih.1, ih.2]

/-- Every record in the store after the loop was either there before, or was
written for a valid entry of the batch (in particular no invalid entry is
ever written). -/
theorem processEntries_store (users : List User) (test : Test) (g : Nat)
    (now : Date) :
    ∀ (es : List SubmitEntry) (rs : List StoredResult) (r : StoredResult),
      r ∈ (processEntries users test g now es rs).1 →
      r ∈ rs ∨ ∃ e ∈ es, entryValid users test e = true ∧
        r.test = test.id ∧ r.student = e.student
  | [], rs, r => by
    intro h
    simp [processEntries] at h
    exact Or.inl h
  | e :: es, rs, r => by
    intro h
    cases hs : findStudent users e.student with
    | none =>
      simp only [processEntries, hs] at h
      rcases processEntries_store users test g now es rs r h with h1 | ⟨e1, he1, hv⟩
      · exact Or.inl h1
      · exact Or.inr ⟨e1, List.mem_cons_of_mem e he1, hv⟩
    | some stu =>
      by_cases hm : marksOk test e.marksObtained
      · by_cases hvv : updateValidatorsOk test (e.marksObtained.getD 0)
            (jsTrim (e.remarks.getD ""))
        · simp only [processEntries, hs, if_pos hm, if_pos hvv] at h
          rcases processEntries_store users test g now es _ r h with
            h1 | ⟨e1, he1, hv⟩
          · rcases mem_upsertResult h1 with rfl | ⟨r0, _, _, rfl⟩ | hmem
            · refine Or.inr ⟨e, List.mem_cons_self e es, ?_, ?_, ?_⟩
              · simp [entryValid, hs, hm, hvv]
              · exact (submitWrite_key test g now e.student _ _ rs).1
              · exact (submitWrite_key test g now e.student _ _ rs).2
            · refine Or.inr ⟨e, List.mem_cons_self e es, ?_, ?_, ?_⟩
              · simp [entryValid, hs, hm, hvv]
              · exact (submitWrite_key test g now e.student _ _ rs).1
              · exact (submitWrite_key test g now e.student _ _ rs).2
            · exact Or.inl hmem
          · exact Or.inr ⟨e1, List.mem_cons_of_mem e he1, hv⟩
        · simp only [processEntries, hs, if_pos hm, if_neg hvv] at h
          rcases processEntries_store users test g now es rs r h with
            h1 | ⟨e1, he1, hv⟩
          · exact Or.inl h1
          · exact Or.inr ⟨e1, List.mem_cons_of_mem e he1, hv⟩
      · simp only [processEntries, hs, if_neg hm] at h
        rcases processEntries_store users test g now es rs r h with h1 | ⟨e1, he1, hv⟩
        · exact Or.inl h1
        · exact Or.inr ⟨e1, List.mem_cons_of_mem e he1, hv⟩

/-- Every record the bulk `bulkWrite` fold leaves in the store was either
there before, or carries exactly the fields the `updateOne` of some entry of
the batch sets: the raw un-rounded percentage and the grade / pass flag
computed from it. -/
theorem mem_bulkFold {test : Test} {g : Option Nat} {now : Date} :
    ∀ {ms : List BulkEntry} {rs : List StoredResult} {r : StoredResult},
      r ∈ ms.foldl (bulkWriteOne test g now) rs →
      r ∈ rs ∨ ∃ mark ∈ ms,
        r.marksObtained = mark.marksObtained ∧
        r.percentage = some (mark.marksObtained / test.maxMarks * 100) ∧
        r.grade = some (gradeOfPercentage (mark.marksObtained / test.maxMarks * 100)) ∧
        r.isPassed = decide (mark.marksObtained ≥ test.passingMarks) ∧
        r.student = mark.student
  | [], rs, r => fun h => Or.inl h
  | mark :: ms, rs, r => by
    intro h
    rw [List.foldl_cons] at h
    rcases mem_bulkFold h with h1 | ⟨m1, hm1, hv⟩
    · rcases mem_upsertResult h1 with rfl | ⟨r0, _, hkey, rfl⟩ | hmem
      · exact Or.inr ⟨mark, List.mem_cons_self mark ms,
          rfl, rfl, rfl, rfl, rfl⟩
      · exact Or.inr ⟨mark, List.mem_cons_self mark ms,
          rfl, rfl, rfl, rfl, hkey.2⟩
      · exact Or.inl hmem
    · exact Or.inr ⟨m1, List.mem_cons_of_mem mark hm1, hv⟩

/-- A record the `submitTestMarks` path may leave behind, relative to the
store `db` it started from: untouched, or freshly inserted with no
percentage / grade and the `isPassed` / `status` defaults, or an update that
carried the derived fields over from some pre-existing record (the
`findOneAndUpdate` never recomputes them). -/
def DerivedUntouched (db : DB) (r : StoredResult) : Prop :=
  r ∈ db.results ∨
  (r.percentage = none ∧ r.grade = none ∧ r.isPassed = false ∧
    r.status = "failed") ∨
  ∃ r0 ∈ db.results, r.percentage = r0.percentage ∧ r.grade = r0.grade ∧
    r.isPassed = r0.isPassed ∧ r.status = r0.status

theorem derivedUntouched_submitWrite (db : DB) (test : Test) (g : Nat)
    (now : Date) (sid : Nat) (m : ℚ) (rem : String) {rs : List StoredResult}
    (hrs : ∀ r ∈ rs, DerivedUntouched db r) :
    DerivedUntouched db (submitWrite test g now sid m rem rs) := by
  unfold submitWrite
  cases hf : rs.find? (fun r => r.test == test.id && r.student == sid) with
  | none => exact Or.inr (Or.inl ⟨rfl, rfl, rfl, rfl⟩)
  | some old =>
    rcases hrs old (List.mem_of_find?_eq_some hf) with hin | hfresh | ⟨r0, hr0, hder⟩
    · exact Or.inr (Or.inr ⟨old, hin, rfl, rfl, rfl, rfl⟩)
    · exact Or.inr (Or.inl ⟨hfresh.1, hfresh.2.1, hfresh.2.2.1, hfresh.2.2.2⟩)
    · exact Or.inr (Or.inr ⟨r0, hr0, hder.1, hder.2.1, hder.2.2.1, hder.2.2.2⟩)

theorem foldl_monthStep :
    ∀ (l : List PopResult) (v : MonthAcc),
      l.foldl monthStep v =
        ⟨v.totalMarks + (l.map (fun p => p.res.marksObtained)).sum,
         v.totalMaxMarks + (l.map (fun p => p.testDoc.maxMarks)).sum,
         v.testsCount + l.length⟩
  | [], v => by simp
  | p :: l, v => by
    rw [List.foldl_cons, foldl_monthStep l (monthStep v p)]
    simp only [monthStep, List.map_cons, List.sum_cons, List.length_cons,
      MonthAcc.mk.injEq]
    refine ⟨by ring, by ring, by omega⟩

/-! ## Concrete fixtures used by the claim theorems -/

def d0 : Date := ⟨2025, 1⟩

def testT1 : Test := ⟨1, 100, 40, 7, true⟩

def stuA : User := ⟨2, "Ana", "student", true⟩

def dbT : DB := ⟨[testT1], [stuA], []⟩

def dbInactive : DB := ⟨[⟨1, 100, 40, 7, false⟩], [stuA], []⟩

def dbC2 : DB := ⟨[⟨1, 3, 1, 7, true⟩], [stuA], []⟩

def r90 : StoredResult :=
  { test := 1
    student := 11
    marksObtained := 90
    maxMarks := some 100
    passingMarks := some 40
    percentage := some 90
    grade := some "A+"
    isPassed := true
    status := "passed"
    remarks := ""
    submittedAt := ⟨2025, 3⟩
    gradedBy := some 5
    gradedAt := ⟨2025, 3⟩
    academicYear := "2025-2026"
    isActive := true
    createdAt := ⟨2025, 3⟩ }

def r30 : StoredResult :=
  { r90 with
    student := 12
    marksObtained := 30
    percentage := some 30
    grade := some "F"
    isPassed := false
    status := "failed" }

def rInact : StoredResult := { r90 with student := 13, isActive := false }

def dbY1 : DB :=
  (submitTestMarks dbT 1 (some [⟨2, some 50, none⟩]) 3 ⟨2024, 5⟩).2

def longRemark : String := ⟨List.replicate 501 'x'⟩

def dbY2 : DB :=
  (submitTestMarks dbY1 1 (some [⟨2, some 50, none⟩]) 3 ⟨2025, 6⟩).2

/-! ## The claims -/

/-- **C10** — a bulk marks submission whose entries list is missing / not an
array (`none`) or empty is rejected with a validation error before the test
is resolved — the response is the same for every database, whatever its
tests collection holds — and no grade record is created or modified (the
database is returned unchanged), on both submission paths. -/
theorem empty_entries_rejected (db : DB) (testId : Nat) (g : Nat)
    (gq : Option Nat) (now : Date) :
    submitTestMarks db testId none g now = (SubmitResp.invalidResults, db) ∧
    submitTestMarks db testId (some []) g now = (SubmitResp.invalidResults, db) ∧
    addOrUpdateMarks db testId none gq now = (BulkResp.invalidMarks, db) ∧
    addOrUpdateMarks db testId (some []) gq now = (BulkResp.invalidMarks, db) :=
  ⟨rfl, rfl, rfl, rfl⟩

/-- **C7** — `getClassStatistics` over zero active records (the only stored
record for the test is soft-deleted) returns the all-zero defaults without
any division; over the records `{marks 90, max 100, pass 40}` and
`{marks 30, max 100, pass 40}` it returns passRate 50, averagePercentage 60,
highestMarks 90, lowestMarks 30 (and averageMarks 60 with grade
distribution one A+ and one F). -/
theorem class_stats_example :
    getClassStatistics ⟨[], [], [rInact]⟩ 1 =
      { totalStudents := 0, averageMarks := 0, averagePercentage := some 0,
        passRate := 0, highestMarks := 0, lowestMarks := 0,
        gradeDistribution := [] } ∧
    getClassStatistics ⟨[], [], [r90, r30]⟩ 1 =
      { totalStudents := 2, averageMarks := 60, averagePercentage := some 60,
        passRate := 50, highestMarks := 90, lowestMarks := 30,
        gradeDistribution := [("A+", 1), ("F", 1)] } := by
  constructor
  · norm_num [getClassStatistics, classStatistics, rInact, r90, List.filter]
  · norm_num [getClassStatistics, classStatistics, sumPercentage, round2,
      r90, r30, qMax, qMin, assocUpd, List.filter]
    decide

/-- **C5** (code bug) — marksObtained 150 against maxMarks 100:
`submitTestMarks` rejects the entry with a per-entry error and stores
nothing, but the `addOrUpdateMarks` bulk path performs no range check and
stores the record with marks 150 and percentage 150 — violating the schema's
own `max: 100` bound on `percentage` (bulkWrite skips validators). -/
theorem out_of_range_marks_paths :
    (addOrUpdateMarks dbT 1 (some [⟨2, 150, none⟩]) (some 3) d0).1 =
      BulkResp.saved ∧
    ((addOrUpdateMarks dbT 1 (some [⟨2, 150, none⟩]) (some 3) d0).2.results.map
      (fun r => (r.marksObtained, r.percentage, r.grade, r.isPassed))) =
      [(150, some 150, some "A+", true)] ∧
    submitTestMarks dbT 1 (some [⟨2, some 150, none⟩]) 3 d0 =
      (SubmitResp.ok [] ["Invalid marks for student Ana"], dbT) := by
  refine ⟨rfl, ?_, ?_⟩
  · norm_num [addOrUpdateMarks, bulkWriteOne, upsertResult, gradeOfPercentage,
      dbT, testT1, stuA]
  · norm_num [submitTestMarks, processEntries, findStudent, marksOk,
      dbT, testT1, stuA]
    decide

/-- **C6 counterexample** — a batch submitted through `addOrUpdateMarks`
against an *inactive* test does not fail: `Test.findById` ignores
`isActive`, the batch is processed and a grade record is written. -/
theorem inactive_test_bulk_processed :
    (addOrUpdateMarks dbInactive 1 (some [⟨2, 50, none⟩]) (some 3) d0).1 =
      BulkResp.saved ∧
    ((addOrUpdateMarks dbInactive 1 (some [⟨2, 50, none⟩]) (some 3) d0).2.results.map
      (fun r => (r.student, r.marksObtained))) = [(2, 50)] := by
  constructor
  · rfl
  · norm_num [addOrUpdateMarks, bulkWriteOne, upsertResult, dbInactive]

/-- **C6** (amended) — `submitTestMarks` resolves the test once per batch
and fails the whole batch, before any entry is processed and without
touching storage, when no *active* test has the id; `addOrUpdateMarks`
fails the whole batch only when no test has the id at all — it does not
check `isActive` (see the counterexample). -/
theorem test_not_found_aborts_batch :
    (∀ (db : DB) (tid : Nat) (es : List SubmitEntry) (g : Nat) (now : Date),
      es ≠ [] →
      db.tests.find? (fun t => t.id == tid && t.isActive) = none →
      submitTestMarks db tid (some es) g now = (SubmitResp.testNotFound, db)) ∧
    (∀ (db : DB) (tid : Nat) (ms : List BulkEntry) (gq : Option Nat) (now : Date),
      ms ≠ [] →
      db.tests.find? (fun t => t.id == tid) = none →
      addOrUpdateMarks db tid (some ms) gq now = (BulkResp.testNotFound, db)) := by
  constructor
  · intro db tid es g now hne hf
    cases es with
    | nil => exact absurd rfl hne
    | cons a as => simp [submitTestMarks, hf]
  · intro db tid ms gq now hne hf
    cases ms with
    | nil => exact absurd rfl hne
    | cons a as => simp [addOrUpdateMarks, hf]

theorem test_not_found_aborts_batch_witness :
    (([⟨2, some 50, none⟩] : List SubmitEntry) ≠ []) ∧
    dbInactive.tests.find? (fun t => t.id == 1 && t.isActive) = none ∧
    submitTestMarks dbInactive 1 (some [⟨2, some 50, none⟩]) 3 d0 =
      (SubmitResp.testNotFound, dbInactive) :=
  ⟨by decide, by decide,
   test_not_found_aborts_batch.1 dbInactive 1 _ 3 d0 (by decide) (by decide)⟩

/-- **C3** (amended) — submitting marks twice for the same (test, student)
through `submitTestMarks` yields exactly one stored record with the latest
raw marks, with `gradedAt` / `gradedBy` from the most recent call and
`submittedAt` / `createdAt` preserved from the first write; however
`academicYear` is *recomputed from the current year at every call* (it sits
in the update document), not preserved from the first write — and, the
`findOneAndUpdate` firing no save middleware, the record never gains a
`percentage` or `grade` and keeps the default `isPassed = false`, so
"reflecting the latest marks" holds only of the raw marks fields. -/
theorem resubmission_upsert (g1 g2 : Nat) (now1 now2 : Date) :
    ((submitTestMarks
        ((submitTestMarks dbT 1 (some [⟨2, some 30, none⟩]) g1 now1).2)
        1 (some [⟨2, some 80, none⟩]) g2 now2).2).results.map
      (fun r => (r.student, r.marksObtained, r.percentage, r.grade, r.isPassed,
        r.submittedAt, r.createdAt, r.gradedAt, r.gradedBy, r.academicYear)) =
      [(2, 80, none, none, false, now1, now1, now2, some g2,
        academicYearOf now2)] := by
  norm_num [submitTestMarks, processEntries, findStudent, marksOk, submitWrite,
    submitFresh, submitBase, updateValidatorsOk, jsTrim, isJsSpace,
    upsertResult, dbT, testT1, stuA]

/-- **C1** (code bug) — marks 45 of maxMarks 100 against passingMarks 40
gives grade "C" and isPassed true wherever a grade is actually computed
(the inline table of the bulk controller, and the schema pre-save hook);
but the `submitTestMarks` path writes through `findOneAndUpdate`, which
fires no document save middleware, so the record it stores carries no
percentage, no grade, and the schema default `isPassed = false` — the
claim's "percentage 45.0, grade C, isPassed true" fails for every record
stored by that path.  Conjunct 1: the stored record of the submit path;
conjunct 2: the same input through the bulk path; conjunct 3: what the
hook would have derived, had it run. -/
theorem grade_derivation_never_runs_on_submit :
    ((submitTestMarks dbT 1 (some [⟨2, some 45, none⟩]) 3 d0).2.results.map
      (fun r => (r.percentage, r.grade, r.isPassed))) =
      [(none, none, false)] ∧
    ((addOrUpdateMarks dbT 1 (some [⟨2, 45, none⟩]) (some 3) d0).2.results.map
      (fun r => (r.percentage, r.grade, r.isPassed))) =
      [(some 45, some "C", true)] ∧
    ((preSaveDerive true true true d0 (submitFresh testT1 3 d0 2 45 "")).percentage,
     (preSaveDerive true true true d0 (submitFresh testT1 3 d0 2 45 "")).grade,
     (preSaveDerive true true true d0 (submitFresh testT1 3 d0 2 45 "")).isPassed) =
      (some 45, some "C", true) := by
  refine ⟨?_, ?_, ?_⟩
  · norm_num [submitTestMarks, processEntries, findStudent, marksOk, submitWrite,
      submitFresh, updateValidatorsOk, jsTrim, isJsSpace, upsertResult,
      dbT, testT1, stuA]
  · norm_num [addOrUpdateMarks, bulkWriteOne, upsertResult, gradeOfPercentage,
      dbT, testT1, stuA]
  · norm_num [preSaveDerive, derivedPct, derivedPassed, submitFresh,
      gradeOfPercentage, round2, testT1]

/-- **C2** (amended) — records written by the `addOrUpdateMarks` bulk path
store the exact un-rounded `marksObtained / test.maxMarks * 100`, with grade
and isPassed computed inline from `(marksObtained, maxMarks, passingMarks)`;
records the `submitTestMarks` path touches never gain a percentage or grade
at all (`findOneAndUpdate` fires no save middleware): a fresh insert stores
`percentage = none`, `grade = none`, `isPassed = false`, and an update
carries every derived field over unchanged from some pre-existing record.
The 2-decimal rounding exists only in the pre-save hook, which neither
controller path triggers. -/
theorem percentage_fields_per_path :
    (∀ (db : DB) (tid : Nat) (es : Option (List SubmitEntry)) (g : Nat)
       (now : Date),
      ∀ r ∈ (submitTestMarks db tid es g now).2.results,
        DerivedUntouched db r) ∧
    (∀ (db : DB) (tid : Nat) (ms : List BulkEntry) (gq : Option Nat)
       (now : Date) (test : Test),
      db.tests.find? (fun t => t.id == tid) = some test →
      ∀ r ∈ (addOrUpdateMarks db tid (some ms) gq now).2.results,
        r ∈ db.results ∨ ∃ mark ∈ ms,
          r.marksObtained = mark.marksObtained ∧
          r.percentage = some (mark.marksObtained / test.maxMarks * 100) ∧
          r.grade = some (gradeOfPercentage
            (mark.marksObtained / test.maxMarks * 100)) ∧
          r.isPassed = decide (mark.marksObtained ≥ test.passingMarks)) := by
  constructor
  · intro db tid es g now r hr
    cases es with
    | none => exact Or.inl hr
    | some es =>
      cases hemp : es.isEmpty with
      | true =>
        simp [submitTestMarks, hemp] at hr
        exact Or.inl hr
      | false =>
        cases hfind : db.tests.find? (fun t => t.id == tid && t.isActive) with
        | none =>
          simp [submitTestMarks, hemp, hfind] at hr
          exact Or.inl hr
        | some test =>
          simp only [submitTestMarks, hemp, hfind] at hr
          exact inv_processEntries (DerivedUntouched db) db.users test g now
            (fun rs sid m rem hrs =>
              derivedUntouched_submitWrite db test g now sid m rem hrs)
            es db.results (fun r hr => Or.inl hr) r hr
  · intro db tid ms gq now test hfind r hr
    cases hemp : ms.isEmpty with
    | true =>
      simp [addOrUpdateMarks, hemp] at hr
      exact Or.inl hr
    | false =>
      simp only [addOrUpdateMarks, hemp, hfind] at hr
      rcases mem_bulkFold hr with h1 | ⟨mark, hm, hv⟩
      · exact Or.inl h1
      · exact Or.inr ⟨mark, hm, hv.1, hv.2.1, hv.2.2.1, hv.2.2.2.1⟩

theorem percentage_fields_per_path_witness :
    dbT.tests.find? (fun t => t.id == 1) = some testT1 ∧
    ∀ r ∈ (addOrUpdateMarks dbT 1 (some [⟨2, 45, none⟩]) (some 3) d0).2.results,
      r ∈ dbT.results ∨ ∃ mark ∈ ([⟨2, 45, none⟩] : List BulkEntry),
        r.marksObtained = mark.marksObtained ∧
        r.percentage = some (mark.marksObtained / testT1.maxMarks * 100) ∧
        r.grade = some (gradeOfPercentage
          (mark.marksObtained / testT1.maxMarks * 100)) ∧
        r.isPassed = decide (mark.marksObtained ≥ testT1.passingMarks) :=
  ⟨by decide,
   percentage_fields_per_path.2 dbT 1 [⟨2, 45, none⟩] (some 3) d0 testT1
     (by decide)⟩

/-- **C2 counterexample** — marksObtained 1 of maxMarks 3 submitted through
the `addOrUpdateMarks` bulk path: the stored percentage is the exact 100/3,
which differs from the 2-decimal rounding 33.33 the claim requires. -/
theorem percentage_not_rounded_on_bulk_path :
    ((addOrUpdateMarks dbC2 1 (some [⟨2, 1, none⟩]) (some 3) d0).2.results.map
      (fun r => r.percentage)) = [some (100 / 3)] ∧
    round2 ((1 : ℚ) / 3 * 100) = 3333 / 100 ∧
    (100 / 3 : ℚ) ≠ 3333 / 100 := by
  refine ⟨?_, ?_, by norm_num⟩
  · norm_num [addOrUpdateMarks, bulkWriteOne, upsertResult, dbC2]
  · norm_num [round2, Int.floor_eq_iff]

set_option maxRecDepth 8000 in
/-- **C4 counterexample** — an entry with a known active student and
in-range marks but a 501-character remark: the claim's enumeration of
invalid entries ("out-of-range marks or unknown/inactive student") calls it
valid, yet the `runValidators: true` validation of the `findOneAndUpdate`
rejects it (schema `maxlength: 500` on `remarks`), the per-entry `catch`
records an error, and nothing is stored. -/
theorem oversized_remarks_rejected :
    (findStudent dbT.users 2).isSome = true ∧
    marksOk testT1 (some 50) = true ∧
    submitTestMarks dbT 1 (some [⟨2, some 50, some longRemark⟩]) 3 d0 =
      (SubmitResp.ok [] ["Failed to save marks for student 2"], dbT) := by
  exact ⟨rfl, by decide, by decide⟩

/-- **C4** (amended) — with the test resolved, a batch of N entries of which
K are invalid (unknown / inactive student, out-of-range marks, or an update
document failing the `runValidators` validation — e.g. remarks longer than
the schema's 500-character maximum) does not abort: the response carries
exactly N−K saved records and K per-entry errors, and every record in
storage afterwards either predates the batch or was written for one of the
*valid* entries — no invalid entry is ever written. -/
theorem batch_partial_failure (db : DB) (tid : Nat) (es : List SubmitEntry)
    (g : Nat) (now : Date) (test : Test) (hne : es ≠ [])
    (hf : db.tests.find? (fun t => t.id == tid && t.isActive) = some test) :
    ∃ saved errs,
      (submitTestMarks db tid (some es) g now).1 = SubmitResp.ok saved errs ∧
      saved.length = (es.filter (fun e => entryValid db.users test e)).length ∧
      errs.length = (es.filter (fun e => !entryValid db.users test e)).length ∧
      ∀ r ∈ (submitTestMarks db tid (some es) g now).2.results,
        r ∈ db.results ∨ ∃ e ∈ es, entryValid db.users test e = true ∧
          r.test = test.id ∧ r.student = e.student := by
  have hemp : es.isEmpty = false := by
    cases es with
    | nil => exact absurd rfl hne
    | cons a as => rfl
  have hsub : submitTestMarks db tid (some es) g now =
      (SubmitResp.ok (processEntries db.users test g now es db.results).2.1
        (processEntries db.users test g now es db.results).2.2,
       { db with results := (processEntries db.users test g now es db.results).1 }) := by
    simp [submitTestMarks, hemp, hf]
  refine ⟨(processEntries db.users test g now es db.results).2.1,
    (processEntries db.users test g now es db.results).2.2, ?_, ?_, ?_, ?_⟩
  · rw [hsub]
  · exact (processEntries_counts db.users test g now es db.results).1
  · exact (processEntries_counts db.users test g now es db.results).2
  · intro r hr
    rw [hsub] at hr
    exact processEntries_store db.users test g now es db.results r hr

theorem batch_partial_failure_witness :
    (([⟨2, some 50, none⟩, ⟨9, some 50, none⟩] : List SubmitEntry) ≠ []) ∧
    dbT.tests.find? (fun t => t.id == 1 && t.isActive) = some testT1 ∧
    (∃ saved errs,
      (submitTestMarks dbT 1 (some [⟨2, some 50, none⟩, ⟨9, some 50, none⟩])
        3 d0).1 = SubmitResp.ok saved errs ∧
      saved.length = (([⟨2, some 50, none⟩, ⟨9, some 50, none⟩] :
        List SubmitEntry).filter (fun e => entryValid dbT.users testT1 e)).length ∧
      errs.length = (([⟨2, some 50, none⟩, ⟨9, some 50, none⟩] :
        List SubmitEntry).filter (fun e => !entryValid dbT.users testT1 e)).length ∧
      ∀ r ∈ (submitTestMarks dbT 1
          (some [⟨2, some 50, none⟩, ⟨9, some 50, none⟩]) 3 d0).2.results,
        r ∈ dbT.results ∨ ∃ e ∈ ([⟨2, some 50, none⟩, ⟨9, some 50, none⟩] :
          List SubmitEntry), entryValid dbT.users testT1 e = true ∧
          r.test = testT1.id ∧ r.student = e.student) :=
  ⟨by decide, by decide,
   batch_partial_failure dbT 1 [⟨2, some 50, none⟩, ⟨9, some 50, none⟩] 3 d0
     testT1 (by decide) (by decide)⟩

/-- **C3 counterexample** — the same marks resubmitted across a year
boundary: after the second call the single record's `academicYear` is the
second call's label, not the first write's. -/
theorem academic_year_recomputed :
    dbY1.results.map (fun r => r.academicYear) = ["2024-2025"] ∧
    dbY2.results.map (fun r => r.academicYear) = ["2025-2026"] ∧
    ("2025-2026" : String) ≠ "2024-2025" := by
  refine ⟨?_, ?_, by decide⟩
  · norm_num [dbY1, submitTestMarks, processEntries, findStudent, marksOk,
      submitWrite, submitFresh, submitBase, preSaveDerive, derivedPct,
      derivedPassed, upsertResult, academicYearOf, dbT, testT1, stuA]
    decide
  · norm_num [dbY2, dbY1, submitTestMarks, processEntries, findStudent, marksOk,
      submitWrite, submitFresh, submitBase, preSaveDerive, derivedPct,
      derivedPassed, upsertResult, academicYearOf, dbT, testT1, stuA]
    decide

/-- **C8** — `subjectPerformance` merges two records of the same student
against two tests of the same subject into a single per-subject entry whose
`totalMarks` / `totalMaxMarks` are the sums over both records, with
`totalTests`, `passedTests`, `percentage` and `passRate` derived
accordingly. -/
theorem subject_performance_merges (p1 p2 : PopResult)
    (hs : p1.testDoc.subject = p2.testDoc.subject) :
    subjectPerformance [p1, p2] =
      [{ subject := p1.testDoc.subject
         totalMarks := p1.res.marksObtained + p2.res.marksObtained
         totalMaxMarks := p1.testDoc.maxMarks + p2.testDoc.maxMarks
         totalTests := 2
         passedTests := (if p1.res.isPassed then 1 else 0) +
           (if p2.res.isPassed then 1 else 0)
         results := [p1, p2]
         percentage :=
           if (0 : ℚ) < p1.testDoc.maxMarks + p2.testDoc.maxMarks then
             round1 ((p1.res.marksObtained + p2.res.marksObtained) /
               (p1.testDoc.maxMarks + p2.testDoc.maxMarks) * 100)
           else 0
         passRate :=
           round1 ((((if p1.res.isPassed then 1 else 0) +
             (if p2.res.isPassed then 1 else 0) : Nat) : ℚ) / 2 * 100) }] := by
  simp [subjectPerformance, groupAcc, assocUpd, subjStep, subjAcc0, hs]

theorem subject_performance_merges_witness :
    (⟨r90, testT1⟩ : PopResult).testDoc.subject =
      (⟨r30, testT1⟩ : PopResult).testDoc.subject ∧
    subjectPerformance [⟨r90, testT1⟩, ⟨r30, testT1⟩] =
      [{ subject := (⟨r90, testT1⟩ : PopResult).testDoc.subject
         totalMarks := r90.marksObtained + r30.marksObtained
         totalMaxMarks := testT1.maxMarks + testT1.maxMarks
         totalTests := 2
         passedTests := (if r90.isPassed then 1 else 0) +
           (if r30.isPassed then 1 else 0)
         results := [⟨r90, testT1⟩, ⟨r30, testT1⟩]
         percentage :=
           if (0 : ℚ) < testT1.maxMarks + testT1.maxMarks then
             round1 ((r90.marksObtained + r30.marksObtained) /
               (testT1.maxMarks + testT1.maxMarks) * 100)
           else 0
         passRate :=
           round1 ((((if r90.isPassed then 1 else 0) +
             (if r30.isPassed then 1 else 0) : Nat) : ℚ) / 2 * 100) }] :=
  ⟨rfl, subject_performance_merges ⟨r90, testT1⟩ ⟨r30, testT1⟩ rfl⟩

/-- **C9** — the monthly rollup groups a student's records by the
`"YYYY-MM"` period of their creation timestamp (which the write paths set
equal to `submittedAt`): one entry per distinct period, each entry's
counters and totals are the sums over exactly the records of its period,
and the entries are sorted ascending by lexicographic comparison of the
period string — an order that coincides with chronological order on genuine
`"YYYY-MM"` keys. -/
theorem monthly_progress_correct (rs : List PopResult)
    (hts : ∀ p ∈ rs, p.res.createdAt = p.res.submittedAt) :
    ((monthlyPerformance rs).map (fun e => e.month)).Nodup ∧
    (∀ p ∈ rs, ∃ e ∈ monthlyPerformance rs,
      e.month = monthKey p.res.submittedAt) ∧
    (∀ e ∈ monthlyPerformance rs,
      (∃ p ∈ rs, monthKey p.res.submittedAt = e.month) ∧
      e.testsCount = (rs.filter
        (fun p => decide (monthKey p.res.submittedAt = e.month))).length ∧
      e.totalMarks = ((rs.filter
        (fun p => decide (monthKey p.res.submittedAt = e.month))).map
          (fun p => p.res.marksObtained)).sum ∧
      e.totalMaxMarks = ((rs.filter
        (fun p => decide (monthKey p.res.submittedAt = e.month))).map
          (fun p => p.testDoc.maxMarks)).sum ∧
      e.percentage = (if (0 : ℚ) < e.totalMaxMarks then
        round1 (e.totalMarks / e.totalMaxMarks * 100) else 0)) ∧
    (monthlyPerformance rs).Sorted monthLe ∧
    (∀ d d' : Date, dateValid d → dateValid d' →
      (strLe (monthKey d) (monthKey d') ↔ chronoLe d d')) := by
  have hfilter : ∀ k : String,
      rs.filter (fun p => decide (monthKey p.res.createdAt = k)) =
        rs.filter (fun p => decide (monthKey p.res.submittedAt = k)) := by
    intro k
    apply List.filter_congr
    intro p hp
    rw [hts p hp]
  have hnodup : ((groupAcc (fun p => monthKey p.res.createdAt) monthStep
      monthAcc0 rs []).map Prod.fst).Nodup :=
    keys_groupAcc_nodup _ _ _ rs [] (by simp)
  have hperm : List.Perm (monthlyPerformance rs)
      ((groupAcc (fun p => monthKey p.res.createdAt) monthStep monthAcc0
        rs []).map monthFinish) :=
    List.perm_insertionSort _ _
  have hmonths : ((groupAcc (fun p => monthKey p.res.createdAt) monthStep
      monthAcc0 rs []).map monthFinish).map (fun e => e.month) =
      (groupAcc (fun p => monthKey p.res.createdAt) monthStep monthAcc0
        rs []).map Prod.fst := by
    rw [List.map_map]
    rfl
  refine ⟨?_, ?_, ?_, ?_, ?_⟩
  · exact ((hperm.map (fun e => e.month)).nodup_iff).mpr (hmonths ▸ hnodup)
  · intro p hp
    have hk : monthKey p.res.createdAt ∈
        (groupAcc (fun p => monthKey p.res.createdAt) monthStep monthAcc0
          rs []).map Prod.fst :=
      (mem_keys_groupAcc _ _ _ rs []).mpr (Or.inr ⟨p, hp, rfl⟩)
    obtain ⟨kv, hkv, hfst⟩ := List.mem_map.1 hk
    refine ⟨monthFinish kv, hperm.mem_iff.mpr (List.mem_map_of_mem _ hkv), ?_⟩
    rw [← hts p hp, ← hfst]
    rfl
  · intro e he
    obtain ⟨kv, hkv, rfl⟩ := List.mem_map.1 (hperm.mem_iff.mp he)
    have hget : assocGet kv.1 (groupAcc (fun p => monthKey p.res.createdAt)
        monthStep monthAcc0 rs []) = some kv.2 :=
      assocGet_of_mem_nodup hnodup hkv
    rw [assocGet_groupAcc] at hget
    cases hflt : rs.filter
        (fun p => decide (monthKey p.res.createdAt = kv.1)) with
    | nil =>
      rw [hflt] at hget
      simp [assocGet] at hget
    | cons a as =>
      rw [hflt] at hget
      simp only [assocGet] at hget
      have hacc : kv.2 = (a :: as).foldl monthStep monthAcc0 := by
        rw [List.foldl_cons]
        exact (Option.some.inj hget).symm
      have hsum := foldl_monthStep (a :: as) monthAcc0
      rw [hsum] at hacc
      have hmem := List.mem_filter.1 (hflt ▸ List.mem_cons_self a as)
      have hka : monthKey a.res.createdAt = kv.1 := of_decide_eq_true hmem.2
      have hflt' : rs.filter
          (fun p => decide (monthKey p.res.submittedAt = kv.1)) = a :: as :=
        (hfilter kv.1) ▸ hflt
      have hem : (monthFinish kv).month = kv.1 := rfl
      refine ⟨⟨a, hmem.1, by rw [← hts a hmem.1]; exact hka⟩, ?_, ?_, ?_, rfl⟩
      · show kv.2.testsCount = _
        rw [hacc, hem, hflt']
        simp [monthAcc0]
      · show kv.2.totalMarks = _
        rw [hacc, hem, hflt']
        simp [monthAcc0]
      · show kv.2.totalMaxMarks = _
        rw [hacc, hem, hflt']
        simp [monthAcc0]
  · exact List.sorted_insertionSort monthLe _
  · intro d d' hd hd'
    exact strLe_monthKey_iff hd hd'

theorem monthly_progress_correct_witness :
    (∀ p ∈ ([⟨r90, testT1⟩,
        ⟨{ r30 with submittedAt := ⟨2025, 2⟩, createdAt := ⟨2025, 2⟩ },
          testT1⟩] : List PopResult), p.res.createdAt = p.res.submittedAt) ∧
    ((monthlyPerformance [⟨r90, testT1⟩,
        ⟨{ r30 with submittedAt := ⟨2025, 2⟩, createdAt := ⟨2025, 2⟩ },
          testT1⟩]).map (fun e => e.month)).Nodup ∧
    (monthlyPerformance [⟨r90, testT1⟩,
        ⟨{ r30 with submittedAt := ⟨2025, 2⟩, createdAt := ⟨2025, 2⟩ },
          testT1⟩]).Sorted monthLe :=
  ⟨by decide,
   (monthly_progress_correct _ (by decide)).1,
   (monthly_progress_correct [⟨r90, testT1⟩,
      ⟨{ r30 with submittedAt := ⟨2025, 2⟩, createdAt := ⟨2025, 2⟩ },
        testT1⟩] (by decide)).2.2.2.1⟩

end PrepApp
